import Mathlib

/-!
Shallow embedding of the `rust-opentimestamps` library core, together with
theorems settling the frozen specification claims.

Bytes are modelled as `Nat` values below 256; byte streams as `List Nat`.
A Rust `Read`er is modelled by passing the remaining byte list explicitly:
each deserializer returns the parsed value together with the unconsumed
bytes, or a `DeserializeError`.  Machine-integer overflow is made explicit
with `% 2^64` where the Rust code computes in `u64`.
-/

deriving instance DecidableEq for Except

set_option maxRecDepth 4096

namespace OTS

/-- Mirrors `ser::DeserializeError`: an IO error (for us: running out of
input bytes) or invalid data carrying the error message the source builds. -/
inductive DeserializeError where
  | io : DeserializeError
  | invalid (msg : String) : DeserializeError
  | invalidUriTooLong : DeserializeError
  | invalidUriChar (b : Nat) : DeserializeError

deriving DecidableEq, Repr

/-- Mirrors `ser::serialize_u64`: little-endian base-128, 7 value bits per
byte, continuation bit `0x80` on every byte but the last. -/
def serialize_u64 (n : Nat) : List Nat :=
  if n < 128 then [n % 256]
  else ((n ||| 128) % 256) :: serialize_u64 (n >>> 7)
termination_by n
decreasing_by
  have : n >>> 7 = n / 2 ^ 7 := Nat.shiftRight_eq_div_pow n 7
  omega

/-- Mirrors `ser::serialize_u32` (which just delegates to `serialize_u64`). -/
def serialize_u32 (n : Nat) : List Nat := serialize_u64 n

/-- Mirrors the loop body of `ser::deserialize_varint`: `n` and `shift` are
the accumulator and current shift, `bits` the declared width.  The `% 2^64`
reflects that the Rust accumulator is a `u64`, so value bits shifted at or
past bit 64 are discarded. -/
def deserialize_varint (bits : Nat) (bytes : List Nat) (n shift : Nat) :
    Except DeserializeError (Nat × List Nat) :=
  match bytes with
  | [] =>
    if shift < bits then Except.error DeserializeError.io
    else Except.error (DeserializeError.invalid "varint overflow")
  | b :: rest =>
    if shift < bits then
      if b &&& 0x80 == 0 then
        if (n ||| ((b &&& 0x7f) <<< shift)) % 2 ^ 64 == 0 && shift > 0 then
          Except.error (DeserializeError.invalid "zero encoded with more than one byte")
        else
          Except.ok ((n ||| ((b &&& 0x7f) <<< shift)) % 2 ^ 64, rest)
      else
        deserialize_varint bits rest ((n ||| ((b &&& 0x7f) <<< shift)) % 2 ^ 64) (shift + 7)
    else
      Except.error (DeserializeError.invalid "varint overflow")

/-- Mirrors `ser::deserialize_u64`. -/
def deserialize_u64 (bytes : List Nat) : Except DeserializeError (Nat × List Nat) :=
  deserialize_varint 64 bytes 0 0

/-- Mirrors `ser::deserialize_u32`, including the final `as u32` cast. -/
def deserialize_u32 (bytes : List Nat) : Except DeserializeError (Nat × List Nat) :=
  (deserialize_varint 32 bytes 0 0).map (fun vr => (vr.1 % 2 ^ 32, vr.2))

/-- Mirrors `ser::serialize_varbytes`. -/
def serialize_varbytes (buf : List Nat) : List Nat :=
  serialize_u64 buf.length ++ buf

/-- Mirrors `ser::deserialize_varbytes`: the caller's buffer size is the
`maxLen` cap, checked before reading the payload. -/
def deserialize_varbytes (maxLen : Nat) (bytes : List Nat) :
    Except DeserializeError (List Nat × List Nat) :=
  match deserialize_u64 bytes with
  | Except.error e => Except.error e
  | Except.ok (len, rest) =>
    if len > maxLen then
      Except.error (DeserializeError.invalid "max length exceeded")
    else if rest.length < len then
      Except.error DeserializeError.io
    else
      Except.ok (rest.take len, rest.drop len)

/-- The external hash primitives (`bitcoin_hashes` crate).  The library
treats SHA-1, SHA-256 and RIPEMD-160 as out-of-scope collaborators, so the
embedding is parametric in them; the facts proved below only use the
output-length contracts stated as hypotheses where needed. -/
structure HashFns where
  sha1 : List Nat → List Nat
  sha256 : List Nat → List Nat
  ripemd160 : List Nat → List Nat

/-- A concrete stand-in hash bundle with the correct output lengths, used to
instantiate parametric theorems on concrete inputs. -/
def constHashes : HashFns :=
  { sha1 := fun _ => List.replicate 20 0
    sha256 := fun _ => List.replicate 32 0
    ripemd160 := fun _ => List.replicate 20 0 }

/-- Mirrors `op::MAX_OUTPUT_LENGTH`. -/
def MAX_OUTPUT_LENGTH : Nat := 4096

/-- Mirrors `op::OverflowError`. -/
structure OverflowError where
  len : Nat

deriving DecidableEq, Repr

/-- Mirrors `op::HashOp`. -/
inductive HashOp where
  | sha1 : HashOp
  | sha256 : HashOp
  | ripemd160 : HashOp

deriving DecidableEq, Repr

/-- Mirrors `HashOp::eval` (dispatch to the external hash primitives). -/
def HashOp.eval (H : HashFns) : HashOp → List Nat → List Nat
  | .sha1, msg => H.sha1 msg
  | .sha256, msg => H.sha256 msg
  | .ripemd160, msg => H.ripemd160 msg

/-- Mirrors `op::HEX_CHARS`. -/
def HEX_CHARS : List Nat :=
  [0x30, 0x31, 0x32, 0x33, 0x34, 0x35, 0x36, 0x37, 0x38, 0x39,
   0x61, 0x62, 0x63, 0x64, 0x65, 0x66]

/-- Mirrors `op::op_hexlify`. -/
def op_hexlify (msg : List Nat) : Except OverflowError (List Nat) :=
  if msg.length > MAX_OUTPUT_LENGTH / 2 then
    Except.error ⟨msg.length⟩
  else
    Except.ok (msg.flatMap fun b =>
      [HEX_CHARS.getD ((b &&& 0xf0) >>> 4) 0, HEX_CHARS.getD (b &&& 0x0f) 0])

/-- Mirrors `op::op_concat` (shared by `Append` and `Prepend`). -/
def op_concat (left right : List Nat) : Except OverflowError (List Nat) :=
  if left.length + right.length > MAX_OUTPUT_LENGTH then
    Except.error ⟨left.length + right.length⟩
  else
    Except.ok (left ++ right)

/-- Mirrors `op::Op` (with the binding argument erased to a byte list). -/
inductive Op where
  | hashOp (h : HashOp) : Op
  | append (b : List Nat) : Op
  | prepend (b : List Nat) : Op
  | hexlify : Op

deriving DecidableEq, Repr

/-- Mirrors `Op::eval`. -/
def Op.eval (H : HashFns) : Op → List Nat → Except OverflowError (List Nat)
  | .hashOp h, msg => Except.ok (h.eval H msg)
  | .append right, msg => op_concat msg right
  | .prepend left, msg => op_concat left msg
  | .hexlify, msg => op_hexlify msg

/-- Mirrors `attestation::Tag` constants `BITCOIN_ATTESTATION_TAG`. -/
def BITCOIN_ATTESTATION_TAG : List Nat := [0x05, 0x88, 0x96, 0x0d, 0x73, 0xd7, 0x19, 0x01]

/-- Mirrors `PENDING_ATTESTATION_TAG`. -/
def PENDING_ATTESTATION_TAG : List Nat := [0x83, 0xdf, 0xe3, 0x0d, 0x2e, 0xf9, 0x0c, 0x8e]

/-- Mirrors `attestation::MAX_PAYLOAD_SIZE`. -/
def MAX_PAYLOAD_SIZE : Nat := 8192

/-- Mirrors `uri::UriString::MAX_LENGTH`. -/
def URI_MAX_LENGTH : Nat := 1000

/-- Mirrors the character-range check in `UriString::validate_str`. -/
def uriCharAllowed (c : Nat) : Bool :=
  (0x41 ≤ c && c ≤ 0x5a) || (0x61 ≤ c && c ≤ 0x7a) || (0x30 ≤ c && c ≤ 0x39) ||
  c == 0x2d || c == 0x2e || c == 0x5f || c == 0x2f || c == 0x3a

/-- Mirrors `uri::UriString` (the validated byte string). -/
structure UriString where
  bytes : List Nat

deriving DecidableEq, Repr

/-- Mirrors `UriString::validate_str`. -/
def validate_str (s : List Nat) : Except DeserializeError Unit :=
  if s.length > URI_MAX_LENGTH then
    Except.error DeserializeError.invalidUriTooLong
  else
    match s.find? (fun c => !uriCharAllowed c) with
    | some b => Except.error (DeserializeError.invalidUriChar b)
    | none => Except.ok ()

/-- Mirrors `UriString::serialize`. -/
def UriString.serialize (u : UriString) : List Nat :=
  serialize_u64 u.bytes.length ++ u.bytes

/-- Mirrors `UriString::deserialize`. -/
def UriString.deserialize (bytes : List Nat) :
    Except DeserializeError (UriString × List Nat) :=
  match deserialize_u64 bytes with
  | Except.error e => Except.error e
  | Except.ok (len, rest) =>
    if len > URI_MAX_LENGTH then
      Except.error DeserializeError.invalidUriTooLong
    else if rest.length < len then
      Except.error DeserializeError.io
    else
      match validate_str (rest.take len) with
      | Except.error e => Except.error e
      | Except.ok _ => Except.ok (⟨rest.take len⟩, rest.drop len)

/-- Mirrors `attestation::Attestation`. -/
inductive Attestation where
  | bitcoin (blockHeight : Nat) : Attestation
  | pending (uri : UriString) : Attestation
  | unknown (tag : List Nat) (payload : List Nat) : Attestation

deriving DecidableEq, Repr

/-- Mirrors `Attestation::serialize`. -/
def Attestation.serialize : Attestation → List Nat
  | .bitcoin blockHeight =>
    BITCOIN_ATTESTATION_TAG ++ serialize_varbytes (serialize_u32 blockHeight)
  | .pending uri =>
    PENDING_ATTESTATION_TAG ++ serialize_varbytes uri.serialize
  | .unknown tag payload =>
    tag ++ serialize_varbytes payload

/-- Mirrors `Attestation::deserialize`.  Note: faithful to the source, the
variant-specific readers consume a prefix of the varbytes payload and any
trailing payload bytes are silently discarded (the source carries a FIXME
noting the missing full-consumption check). -/
def Attestation.deserialize (bytes : List Nat) :
    Except DeserializeError (Attestation × List Nat) :=
  if bytes.length < 8 then
    Except.error DeserializeError.io
  else
    match deserialize_varbytes MAX_PAYLOAD_SIZE (bytes.drop 8) with
    | Except.error e => Except.error e
    | Except.ok (payload, rest) =>
      if bytes.take 8 = BITCOIN_ATTESTATION_TAG then
        match deserialize_u32 payload with
        | Except.error e => Except.error e
        | Except.ok (blockHeight, _leftover) => Except.ok (Attestation.bitcoin blockHeight, rest)
      else if bytes.take 8 = PENDING_ATTESTATION_TAG then
        match UriString.deserialize payload with
        | Except.error e => Except.error e
        | Except.ok (uri, _leftover) => Except.ok (Attestation.pending uri, rest)
      else
        Except.ok (Attestation.unknown (bytes.take 8) payload, rest)

/-- Mirrors `timestamp::Step`. -/
inductive Step where
  | attestation (a : Attestation) : Step
  | op (o : Op) : Step
  | fork : Step

deriving DecidableEq, Repr

/-- Mirrors `Step::serialize`. -/
def Step.serialize : Step → List Nat
  | .attestation a => 0x00 :: a.serialize
  | .op (.hashOp .sha1) => [0x02]
  | .op (.hashOp .sha256) => [0x08]
  | .op (.hashOp .ripemd160) => [0x03]
  | .op .hexlify => [0xf3]
  | .op (.append rhs) => 0xf0 :: serialize_varbytes rhs
  | .op (.prepend lhs) => 0xf1 :: serialize_varbytes lhs
  | .fork => [0xff]

/-- Mirrors `Step::deserialize`; the `bin_op_arg` scratch buffer caps the
Append/Prepend binding argument at `MAX_OUTPUT_LENGTH`. -/
def Step.deserialize (bytes : List Nat) : Except DeserializeError (Step × List Nat) :=
  match bytes with
  | [] => Except.error DeserializeError.io
  | b :: rest =>
    if b = 0x00 then
      (Attestation.deserialize rest).map fun ar => (Step.attestation ar.1, ar.2)
    else if b = 0xff then Except.ok (Step.fork, rest)
    else if b = 0x02 then Except.ok (Step.op (Op.hashOp HashOp.sha1), rest)
    else if b = 0x08 then Except.ok (Step.op (Op.hashOp HashOp.sha256), rest)
    else if b = 0x03 then Except.ok (Step.op (Op.hashOp HashOp.ripemd160), rest)
    else if b = 0xf3 then Except.ok (Step.op Op.hexlify, rest)
    else if b = 0xf0 then
      (deserialize_varbytes MAX_OUTPUT_LENGTH rest).map fun ar => (Step.op (Op.append ar.1), ar.2)
    else if b = 0xf1 then
      (deserialize_varbytes MAX_OUTPUT_LENGTH rest).map fun ar => (Step.op (Op.prepend ar.1), ar.2)
    else Except.error (DeserializeError.invalid "unknown op")

/-- Mirrors `Steps::serialize`: concatenation of the step encodings, with no
explicit terminator. -/
def stepsSerialize (steps : List Step) : List Nat :=
  steps.flatMap Step.serialize

/-- Mirrors the loop of `Steps::deserialize`: `tips` starts at 1, `Fork`
increments it, `Attestation` decrements it, and reading stops when it
reaches 0.  The steps are collected in reading order.  The structural
`fuel` argument bounds the number of loop iterations; since every
iteration consumes at least one input byte (`step_deserialize_rest_lt`),
`fuel = bytes.length` is enough, and when fuel runs out the input is
empty, where the source's read of the next step byte fails with the same
IO error this returns. -/
def stepsDeserializeGo (fuel : Nat) (bytes : List Nat) (tips : Nat) :
    Except DeserializeError (List Step × List Nat) :=
  if tips = 0 then
    Except.ok ([], bytes)
  else
    match fuel with
    | 0 => Except.error DeserializeError.io
    | fuel + 1 =>
      match Step.deserialize bytes with
      | Except.error e => Except.error e
      | Except.ok (step, rest) =>
        match stepsDeserializeGo fuel rest
            (match step with
             | Step.fork => tips + 1
             | Step.attestation _ => tips - 1
             | Step.op _ => tips) with
        | Except.error e => Except.error e
        | Except.ok (steps, rest2) => Except.ok (step :: steps, rest2)

/-- Mirrors `Steps::deserialize`. -/
def stepsDeserialize (bytes : List Nat) : Except DeserializeError (List Step × List Nat) :=
  stepsDeserializeGo bytes.length bytes 1

/-- Mirrors `timestamp::Timestamp` (generic over the message type). -/
structure Timestamp (M : Type) where
  msg : M
  steps : List Step

deriving DecidableEq, Repr

/-- Mirrors `Timestamp::serialize` (just the steps; the message is not on
the wire). -/
def Timestamp.serialize {M : Type} (t : Timestamp M) : List Nat :=
  stepsSerialize t.steps

/-- Mirrors `Timestamp::deserialize` (the `FIXME: check the steps are
actually valid` point: only the `tips` framing is enforced). -/
def Timestamp.deserialize {M : Type} (msg : M) (bytes : List Nat) :
    Except DeserializeError (Timestamp M × List Nat) :=
  match stepsDeserialize bytes with
  | Except.error e => Except.error e
  | Except.ok (steps, rest) => Except.ok (⟨msg, steps⟩, rest)

/-- The spec's `tips` framing invariant on a step sequence, replayed from a
given starting tip count: `Fork` adds a branch, `Attestation` closes one,
and the count must hit zero exactly at the end of the list (and not
before). -/
def wfFrom : Nat → List Step → Bool
  | 0, [] => true
  | 0, _ :: _ => false
  | _ + 1, [] => false
  | t + 1, s :: rest =>
    match s with
    | Step.fork => wfFrom (t + 2) rest
    | Step.attestation _ => wfFrom t rest
    | Step.op _ => wfFrom (t + 1) rest

/-- Mirrors `timestamp::StepsEvaluator`.  The Rust `Vec` stack is modelled
with its top (`Vec::last`) at the list head; `dropped_result` keeps the
message popped by the last attestation (in the source it only extends a
borrow's lifetime, but it is part of the state). -/
structure StepsEvaluator where
  stack : List (List Nat)
  dropped_result : Option (List Nat)
  next_steps : List Step

deriving DecidableEq, Repr

/-- Mirrors `StepsEvaluator::new`. -/
def StepsEvaluator.new (initialMsg : List Nat) (steps : List Step) : StepsEvaluator :=
  ⟨[initialMsg], none, steps⟩

/-- Mirrors `StepsEvaluator::result` (`stack.last()`). -/
def StepsEvaluator.result (e : StepsEvaluator) : Option (List Nat) :=
  e.stack.head?

/-- The possible outcomes of one `try_next_step` call.  `panicTodo` models
the `todo!()` the source executes when the stack is empty but steps remain
(`timestamp.rs` line 201). -/
inductive TryNextOutcome where
  | completed : TryNextOutcome
  | ok (s : Step) (msg : List Nat) : TryNextOutcome
  | errOp (e : OverflowError) : TryNextOutcome
  | errInsufficientSteps : TryNextOutcome
  | panicTodo : TryNextOutcome

deriving DecidableEq, Repr

/-- Mirrors `StepsEvaluator::try_next_step`, returning the outcome together
with the updated state (the source mutates `self`). -/
def tryNextStep (H : HashFns) (e : StepsEvaluator) : TryNextOutcome × StepsEvaluator :=
  match e.stack, e.next_steps with
  | [], [] => (TryNextOutcome.completed, e)
  | msg :: stackRest, step :: remaining =>
    match step with
    | Step.attestation _ =>
      (TryNextOutcome.ok step msg, ⟨stackRest, some msg, remaining⟩)
    | Step.op o =>
      match o.eval H msg with
      | Except.ok r => (TryNextOutcome.ok step r, ⟨r :: stackRest, e.dropped_result, remaining⟩)
      | Except.error err => (TryNextOutcome.errOp err, e)
    | Step.fork =>
      (TryNextOutcome.ok step msg, ⟨msg :: msg :: stackRest, e.dropped_result, remaining⟩)
  | _ :: _, [] => (TryNextOutcome.errInsufficientSteps, e)
  | [], _ :: _ => (TryNextOutcome.panicTodo, e)

/-- The terminal outcome of running the evaluator transition to exhaustion:
either the proof evaluates (`done`), an op overflows, or one of the two
structural failures occurs. -/
inductive EvalOutcome where
  | done : EvalOutcome
  | overflow (e : OverflowError) : EvalOutcome
  | insufficientSteps : EvalOutcome
  | trailingStepsPanic : EvalOutcome

deriving DecidableEq, Repr

/-- Runs the `try_next_step` transition until completion or failure,
starting from a given stack.  `runEval H [msg] steps` is the evaluation of
`steps` against the initial message `msg`. -/
def runEval (H : HashFns) : List (List Nat) → List Step → EvalOutcome
  | [], [] => EvalOutcome.done
  | msg :: stackRest, step :: rest =>
    match step with
    | Step.attestation _ => runEval H stackRest rest
    | Step.op o =>
      match o.eval H msg with
      | Except.ok r => runEval H (r :: stackRest) rest
      | Except.error e => EvalOutcome.overflow e
    | Step.fork => runEval H (msg :: msg :: stackRest) rest
  | _ :: _, [] => EvalOutcome.insufficientSteps
  | [], _ :: _ => EvalOutcome.trailingStepsPanic

/-- Mirrors `detached::FileDigest`. -/
inductive FileDigest where
  | sha1 (d : List Nat) : FileDigest
  | ripemd160 (d : List Nat) : FileDigest
  | sha256 (d : List Nat) : FileDigest

deriving DecidableEq, Repr

/-- Mirrors `FileDigest`'s `AsRef<[u8]>`. -/
def FileDigest.asRef : FileDigest → List Nat
  | .sha1 d => d
  | .ripemd160 d => d
  | .sha256 d => d

/-- Mirrors `DetachedTimestampFile::HEADER_MAGIC` (31 bytes). -/
def HEADER_MAGIC : List Nat :=
  [0x00,
   0x4f, 0x70, 0x65, 0x6e, 0x54, 0x69, 0x6d, 0x65, 0x73, 0x74, 0x61, 0x6d, 0x70, 0x73,
   0x00, 0x00,
   0x50, 0x72, 0x6f, 0x6f, 0x66,
   0x00,
   0xbf, 0x89, 0xe2, 0xe8, 0x84, 0xe8, 0x92, 0x94]

/-- Mirrors `DetachedTimestampFile::MAJOR_VERSION`. -/
def MAJOR_VERSION : Nat := 1

/-- Mirrors `timestamp::detached::DetachedTimestampFile`. -/
structure DetachedTimestampFile where
  inner : Timestamp FileDigest

deriving DecidableEq, Repr

/-- Mirrors `DetachedTimestampFile::digest`. -/
def DetachedTimestampFile.digest (f : DetachedTimestampFile) : FileDigest :=
  f.inner.msg

/-- Mirrors `DetachedTimestampFile::serialize`.  Faithful to the source:
the algorithm byte emitted for `Ripemd160` is `0x02`, the same as for
`Sha1`. -/
def DetachedTimestampFile.serialize (f : DetachedTimestampFile) : List Nat :=
  HEADER_MAGIC ++ [MAJOR_VERSION] ++
  [match f.digest with
   | FileDigest.sha1 _ => 0x02
   | FileDigest.ripemd160 _ => 0x02
   | FileDigest.sha256 _ => 0x08] ++
  f.digest.asRef ++ stepsSerialize f.inner.steps

/-- Mirrors `DetachedTimestampFile::deserialize`. -/
def DetachedTimestampFile.deserialize (bytes : List Nat) :
    Except DeserializeError (DetachedTimestampFile × List Nat) :=
  if bytes.length < 31 then Except.error DeserializeError.io
  else if bytes.take 31 ≠ HEADER_MAGIC then Except.error (DeserializeError.invalid "bad magic")
  else
    match bytes.drop 31 with
    | [] => Except.error DeserializeError.io
    | major :: rest1 =>
      if major ≠ MAJOR_VERSION then Except.error (DeserializeError.invalid "bad major version")
      else
        match rest1 with
        | [] => Except.error DeserializeError.io
        | op :: rest2 =>
          if op = 0x02 then
            if rest2.length < 20 then Except.error DeserializeError.io
            else
              match Timestamp.deserialize (FileDigest.sha1 (rest2.take 20)) (rest2.drop 20) with
              | Except.error e => Except.error e
              | Except.ok (inner, rest3) => Except.ok (⟨inner⟩, rest3)
          else if op = 0x03 then
            if rest2.length < 20 then Except.error DeserializeError.io
            else
              match Timestamp.deserialize (FileDigest.ripemd160 (rest2.take 20)) (rest2.drop 20) with
              | Except.error e => Except.error e
              | Except.ok (inner, rest3) => Except.ok (⟨inner⟩, rest3)
          else if op = 0x08 then
            if rest2.length < 32 then Except.error DeserializeError.io
            else
              match Timestamp.deserialize (FileDigest.sha256 (rest2.take 32)) (rest2.drop 32) with
              | Except.error e => Except.error e
              | Except.ok (inner, rest3) => Except.ok (⟨inner⟩, rest3)
          else Except.error (DeserializeError.invalid "unknown op")

/-- Mirrors `timestamp::TimestampBuilder` (message erased to bytes). -/
structure TimestampBuilder where
  msg : List Nat
  result : Option (List Nat)
  steps : List Step

deriving DecidableEq, Repr

/-- Mirrors `TimestampBuilder::new`. -/
def TimestampBuilder.mk_new (msg : List Nat) : TimestampBuilder :=
  ⟨msg, none, []⟩

/-- Mirrors `TimestampBuilder::result()` (the accumulated message value,
falling back to `msg`). -/
def TimestampBuilder.resultBytes (b : TimestampBuilder) : List Nat :=
  b.result.getD b.msg

/-- Mirrors `TimestampBuilder::try_push_op`. -/
def TimestampBuilder.try_push_op (H : HashFns) (b : TimestampBuilder) (op : Op) :
    Except OverflowError TimestampBuilder :=
  match op.eval H b.resultBytes with
  | Except.error e => Except.error e
  | Except.ok r => Except.ok ⟨b.msg, some r, b.steps ++ [Step.op op]⟩

/-- Mirrors `TimestampBuilder::hash` (infallible). -/
def TimestampBuilder.hash (H : HashFns) (b : TimestampBuilder) (op : HashOp) : TimestampBuilder :=
  ⟨b.msg, some (op.eval H b.resultBytes), b.steps ++ [Step.op (Op.hashOp op)]⟩

/-- Mirrors `TimestampBuilder::append`; `none` models the `expect`
panic on overflow. -/
def TimestampBuilder.append (H : HashFns) (b : TimestampBuilder) (right : List Nat) :
    Option TimestampBuilder :=
  (b.try_push_op H (Op.append right)).toOption

/-- Mirrors `TimestampBuilder::prepend`; `none` models the `expect`
panic on overflow. -/
def TimestampBuilder.prepend (H : HashFns) (b : TimestampBuilder) (left : List Nat) :
    Option TimestampBuilder :=
  (b.try_push_op H (Op.prepend left)).toOption

/-- Mirrors the loop of `TimestampBuilder::finish_with_timestamps`: for
each sub-timestamp, `assert_eq!(timestamp.msg(), self.result())` (a failed
assertion is `none`), a `Fork` whenever more sub-timestamps follow, then
the sub-timestamp's steps. -/
def finishWithTimestampsSteps (result : List Nat) (steps : List Step) :
    List (Timestamp (List Nat)) → Option (List Step)
  | [] => some steps
  | ts :: rest =>
    if ts.msg ≠ result then none
    else
      finishWithTimestampsSteps result
        (steps ++ (if rest.isEmpty then [] else [Step.fork]) ++ ts.steps) rest

/-- Mirrors `TimestampBuilder::finish_with_timestamps`. -/
def TimestampBuilder.finish_with_timestamps (b : TimestampBuilder)
    (tss : List (Timestamp (List Nat))) : Option (Timestamp (List Nat)) :=
  (finishWithTimestampsSteps b.resultBytes b.steps tss).map (fun steps => ⟨b.msg, steps⟩)

/-- Mirrors `TimestampBuilder::finish_with_attestation`. -/
def TimestampBuilder.finish_with_attestation (b : TimestampBuilder) (a : Attestation) :
    Timestamp (List Nat) :=
  ⟨b.msg, b.steps ++ [Step.attestation a]⟩

/-- Mirrors the first `for` loop in `tree::build_merkle_tree`: every
left-half builder appends the right tip and hashes with SHA-256; `none`
models the append-overflow panic. -/
def updateLeftBuilders (H : HashFns) (rtip : List Nat) :
    List TimestampBuilder → Option (List TimestampBuilder)
  | [] => some []
  | b :: rest =>
    match (b.append H rtip).map (fun b2 => b2.hash H HashOp.sha256) with
    | none => none
    | some b2 => (updateLeftBuilders H rtip rest).map (fun tl => b2 :: tl)

/-- Mirrors the second `for` loop in `tree::build_merkle_tree`: every
right-half builder prepends the left tip and hashes with SHA-256. -/
def updateRightBuilders (H : HashFns) (ltip : List Nat) :
    List TimestampBuilder → Option (List TimestampBuilder)
  | [] => some []
  | b :: rest =>
    match (b.prepend H ltip).map (fun b2 => b2.hash H HashOp.sha256) with
    | none => none
    | some b2 => (updateRightBuilders H ltip rest).map (fun tl => b2 :: tl)

/-- Mirrors `tree::build_merkle_tree`, returning the tip together with the
updated builder slice; `none` models the panics (`assert!` on emptiness,
`expect("32 byte digest")`, append/prepend overflow, and the final
`assert_eq!` between first and last results).  The structural `fuel`
argument bounds the recursion depth; both recursive calls are on strictly
shorter slices, so `fuel = items.length` is enough, and the fuel-exhausted
branch is unreachable from `build_merkle_tree` (it would need a slice of
length at least 2 with fuel at least its length). -/
def buildMerkleGo (H : HashFns) :
    Nat → List TimestampBuilder → Option (List Nat × List TimestampBuilder)
  | _, [] => none
  | _, [b] =>
    let b2 := if b.msg.length ≠ 32 then b.hash H HashOp.sha256 else b
    if b2.resultBytes.length = 32 then some (b2.resultBytes, [b2]) else none
  | 0, _ :: _ :: _ => none
  | fuel + 1, x :: y :: rest =>
      match buildMerkleGo H fuel ((x :: y :: rest).take ((x :: y :: rest).length / 2)),
            buildMerkleGo H fuel ((x :: y :: rest).drop ((x :: y :: rest).length / 2)) with
      | some (ltip, left2), some (rtip, right2) =>
        match updateLeftBuilders H rtip left2, updateRightBuilders H ltip right2 with
        | some left3, some right3 =>
          match (left3 ++ right3).head?, (left3 ++ right3).getLast? with
          | some first, some last =>
            if first.resultBytes.length = 32 then
              if first.resultBytes = last.resultBytes then
                some (first.resultBytes, left3 ++ right3)
              else none
            else none
          | _, _ => none
        | _, _ => none
      | _, _ => none

/-- Mirrors `tree::build_merkle_tree` at the top level. -/
def build_merkle_tree (H : HashFns) (items : List TimestampBuilder) :
    Option (List Nat × List TimestampBuilder) :=
  buildMerkleGo H items.length items

/-- Modelled from the spec: the mathematical value of a self-delimiting
base-128 little-endian varint (7 value bits per byte, high bit =
continuation), together with the bytes following the terminator.  This is
the reference value the codec claims to decode. -/
def varintValueSpec : List Nat → Option (Nat × List Nat)
  | [] => none
  | b :: rest =>
    if b &&& 0x80 == 0 then some (b &&& 0x7f, rest)
    else (varintValueSpec rest).map (fun vr => ((b &&& 0x7f) + 128 * vr.1, vr.2))

/-- Recognizes the `Op` steps (the only kind a bare builder accumulates). -/
def isOpStep : Step → Bool
  | Step.op _ => true
  | _ => false

/-- Every sub-deserializer hands back a suffix of its input no longer than
the input; `Step.deserialize` additionally consumes its leading tag byte. -/
theorem deserialize_varint_rest_le (bits : Nat) (bytes : List Nat) (n shift v : Nat)
    (rest : List Nat) (h : deserialize_varint bits bytes n shift = Except.ok (v, rest)) :
    rest.length < bytes.length := by
  induction bytes generalizing n shift with
  | nil => rw [deserialize_varint] at h; split at h <;> simp_all
  | cons b tl ih =>
    rw [deserialize_varint] at h
    split at h
    · split at h
      · split at h
        · simp_all
        · simp only [Except.ok.injEq, Prod.mk.injEq] at h
          simp [← h.2]
      · exact Nat.lt_trans (ih _ _ h) (by simp)
    · simp_all

theorem deserialize_varbytes_rest_le (maxLen : Nat) (bytes payload rest : List Nat)
    (h : deserialize_varbytes maxLen bytes = Except.ok (payload, rest)) :
    rest.length < bytes.length := by
  unfold deserialize_varbytes at h
  split at h
  · simp_all
  next len rest1 heq =>
    split at h
    · simp_all
    · split at h
      · simp_all
      · simp only [Except.ok.injEq, Prod.mk.injEq] at h
        obtain ⟨hp, hr⟩ := h
        subst hr
        have h1 : rest1.length < bytes.length :=
          deserialize_varint_rest_le 64 bytes 0 0 len rest1 heq
        have h2 : (rest1.drop len).length ≤ rest1.length := by simp
        omega

theorem attestation_deserialize_rest_le (bytes : List Nat) (a : Attestation)
    (rest : List Nat) (h : Attestation.deserialize bytes = Except.ok (a, rest)) :
    rest.length < bytes.length := by
  unfold Attestation.deserialize at h
  split at h
  · simp_all
  · split at h
    · simp_all
    next payload rest1 hv =>
      have h1 : rest1.length < (bytes.drop 8).length :=
        deserialize_varbytes_rest_le _ _ _ _ hv
      have h2 : (bytes.drop 8).length ≤ bytes.length := by simp
      split at h
      · split at h
        · simp_all
        · simp only [Except.ok.injEq, Prod.mk.injEq] at h
          obtain ⟨ha2, hr⟩ := h
          subst hr
          omega
      · split at h
        · split at h
          · simp_all
          · simp only [Except.ok.injEq, Prod.mk.injEq] at h
            obtain ⟨ha2, hr⟩ := h
            subst hr
            omega
        · simp only [Except.ok.injEq, Prod.mk.injEq] at h
          obtain ⟨ha2, hr⟩ := h
          subst hr
          omega

theorem step_deserialize_rest_lt (bytes : List Nat) (s : Step) (rest : List Nat)
    (h : Step.deserialize bytes = Except.ok (s, rest)) :
    rest.length < bytes.length := by
  match bytes with
  | [] => rw [Step.deserialize] at h; simp at h
  | b :: tl =>
    rw [Step.deserialize] at h
    simp only [List.length_cons]
    split at h
    · cases ha : Attestation.deserialize tl with
      | error e => rw [ha] at h; simp [Except.map] at h
      | ok ar =>
        rw [ha] at h
        simp only [Except.map, Except.ok.injEq] at h
        have hlt := attestation_deserialize_rest_le _ _ _ ha
        have hr : ar.2 = rest := congrArg Prod.snd h
        have hr2 : ar.2.length = rest.length := congrArg List.length hr
        omega
    · split at h
      · simp only [Except.ok.injEq, Prod.mk.injEq] at h; simp [← h.2]
      · split at h
        · simp only [Except.ok.injEq, Prod.mk.injEq] at h; simp [← h.2]
        · split at h
          · simp only [Except.ok.injEq, Prod.mk.injEq] at h; simp [← h.2]
          · split at h
            · simp only [Except.ok.injEq, Prod.mk.injEq] at h; simp [← h.2]
            · split at h
              · simp only [Except.ok.injEq, Prod.mk.injEq] at h; simp [← h.2]
              · split at h
                · cases hv : deserialize_varbytes MAX_OUTPUT_LENGTH tl with
                  | error e => rw [hv] at h; simp [Except.map] at h
                  | ok ar =>
                    rw [hv] at h
                    simp only [Except.map, Except.ok.injEq] at h
                    have hlt := deserialize_varbytes_rest_le _ _ _ _ hv
                    have hr : ar.2 = rest := congrArg Prod.snd h
                    have hr2 : ar.2.length = rest.length := congrArg List.length hr
                    omega
                · split at h
                  · cases hv : deserialize_varbytes MAX_OUTPUT_LENGTH tl with
                    | error e => rw [hv] at h; simp [Except.map] at h
                    | ok ar =>
                      rw [hv] at h
                      simp only [Except.map, Except.ok.injEq] at h
                      have hlt := deserialize_varbytes_rest_le _ _ _ _ hv
                      have hr : ar.2 = rest := congrArg Prod.snd h
                      have hr2 : ar.2.length = rest.length := congrArg List.length hr
                      omega
                  · simp at h

/-- The steps produced by the `Steps::deserialize` loop always satisfy the
tips framing invariant from the entry tip count. -/
theorem stepsDeserializeGo_wf (fuel : Nat) : ∀ (bytes : List Nat)
    (tips : Nat) (steps : List Step) (rest : List Nat),
    stepsDeserializeGo fuel bytes tips = Except.ok (steps, rest) →
    wfFrom tips steps = true := by
  induction fuel with
  | zero =>
    intro bytes tips steps rest h
    rw [stepsDeserializeGo] at h
    split at h
    · simp only [Except.ok.injEq, Prod.mk.injEq] at h
      obtain ⟨hsteps, -⟩ := h
      subst hsteps
      simp_all [wfFrom]
    · simp at h
  | succ fuel ih =>
    intro bytes tips steps rest h
    rw [stepsDeserializeGo] at h
    split at h
    · simp only [Except.ok.injEq, Prod.mk.injEq] at h
      obtain ⟨hsteps, -⟩ := h
      subst hsteps
      simp_all [wfFrom]
    · split at h
      · simp_all
      next step rest1 hs =>
        split at h
        · simp_all
        next steps1 rest2 htl =>
          simp only [Except.ok.injEq, Prod.mk.injEq] at h
          obtain ⟨hsteps, -⟩ := h
          subst hsteps
          have hwf := ih rest1 _ _ _ htl
          match step with
          | Step.fork =>
            simp only at hwf
            match tips, hwf with
            | t + 1, hwf => simpa [wfFrom] using hwf
          | Step.attestation a =>
            simp only at hwf
            match tips with
            | t + 1 => simpa [wfFrom] using hwf
          | Step.op o =>
            simp only at hwf
            match tips with
            | t + 1 => simpa [wfFrom] using hwf

theorem stepsDeserialize_wf (bytes : List Nat) (steps : List Step) (rest : List Nat)
    (h : stepsDeserialize bytes = Except.ok (steps, rest)) : wfFrom 1 steps = true :=
  stepsDeserializeGo_wf bytes.length bytes 1 steps rest h

/-- A byte below 128 has a clear continuation bit. -/
theorem and_128_eq_zero {n : Nat} (h : n < 128) : n &&& 128 = 0 := by
  apply Nat.eq_of_testBit_eq
  intro i
  simp only [Nat.testBit_and, Nat.zero_testBit]
  rcases eq_or_ne i 7 with rfl | hne
  · have : n.testBit 7 = false := Nat.testBit_lt_two_pow (by norm_num; omega)
    simp [this]
  · have : (128 : Nat).testBit i = false := by
      have h128 : (128 : Nat) = 2 ^ 7 := by norm_num
      rw [h128]
      exact Nat.testBit_two_pow_of_ne (Ne.symm hne)
    simp [this]

/-- A byte below 128 keeps all its value bits under the `0x7f` mask. -/
theorem and_127_eq_self {n : Nat} (h : n < 128) : n &&& 127 = n := by
  have h127 : (127 : Nat) = 2 ^ 7 - 1 := by norm_num
  rw [h127]
  exact Nat.and_pow_two_sub_one_of_lt_two_pow (by norm_num; omega)

/-- The continuation byte `(n | 0x80) as u8` has its top bit set. -/
theorem contByte_and_128 (n : Nat) : ((n ||| 128) % 256) &&& 128 = 128 := by
  apply Nat.eq_of_testBit_eq
  intro i
  have h256 : (256 : Nat) = 2 ^ 8 := by norm_num
  have h128 : (128 : Nat) = 2 ^ 7 := by norm_num
  simp only [Nat.testBit_and]
  rcases eq_or_ne i 7 with rfl | hne
  · have h2 : (128 : Nat).testBit 7 = true := by decide
    have h1 : ((n ||| 128) % 256).testBit 7 = true := by
      rw [h256, Nat.testBit_mod_two_pow]
      simp [Nat.testBit_or, h2]
    simp [h1, h2]
  · have ht : (128 : Nat).testBit i = false := by
      rw [h128]; exact Nat.testBit_two_pow_of_ne (Ne.symm hne)
    simp [ht]

/-- The continuation byte's low seven bits are `n % 128`. -/
theorem contByte_and_127 (n : Nat) : ((n ||| 128) % 256) &&& 127 = n % 128 := by
  have h256 : (256 : Nat) = 2 ^ 8 := by norm_num
  have h127 : (127 : Nat) = 2 ^ 7 - 1 := by norm_num
  rw [h127, Nat.and_pow_two_sub_one_eq_mod]
  have hmm : (n ||| 128) % 256 % 2 ^ 7 = (n ||| 128) % 2 ^ 7 := by
    rw [h256]
    exact Nat.mod_mod_of_dvd _ (by norm_num)
  rw [hmm]
  have hr : n % 128 = n % 2 ^ 7 := by norm_num
  rw [hr]
  apply Nat.eq_of_testBit_eq
  intro i
  rw [Nat.testBit_mod_two_pow, Nat.testBit_mod_two_pow]
  by_cases hi : i < 7
  · have ht : (128 : Nat).testBit i = false := by
      have h128v : (128 : Nat) = 2 ^ 7 := by norm_num
      rw [h128v]
      exact Nat.testBit_two_pow_of_ne (by omega)
    simp [hi, Nat.testBit_or, ht]
  · simp [hi]

/-- Or-ing a value shifted past the accumulator's width is addition. -/
theorem or_shift_eq_add {acc x shift : Nat} (h : acc < 2 ^ shift) :
    acc ||| (x <<< shift) = acc + x * 2 ^ shift := by
  rw [Nat.shiftLeft_eq, Nat.lor_comm, Nat.mul_comm]
  rw [← Nat.mul_add_lt_is_or h x]
  omega

/-- Round-trip invariant of the varint codec: decoding the encoding of `n`
appended to `rest`, from accumulator `acc` at shift position `shift`,
yields `acc + n * 2 ^ shift` and leaves exactly `rest`. -/
theorem deserialize_serialize_u64_aux (n : Nat) : ∀ (acc shift : Nat) (rest : List Nat),
    shift < 64 → acc < 2 ^ shift → n < 2 ^ (64 - shift) → (n = 0 → shift = 0) →
    deserialize_varint 64 (serialize_u64 n ++ rest) acc shift =
      Except.ok (acc + n * 2 ^ shift, rest) := by
  induction n using Nat.strong_induction_on with
  | _ n ih =>
    intro acc shift rest hshift hacc hn hzero
    by_cases h128 : n < 128
    · rw [serialize_u64, if_pos h128, Nat.mod_eq_of_lt (by omega)]
      rw [List.cons_append, deserialize_varint]
      rw [if_pos hshift]
      rw [and_128_eq_zero h128, and_127_eq_self h128]
      rw [if_pos (by decide : ((0 : Nat) == 0) = true)]
      rw [or_shift_eq_add hacc]
      have hlt64 : acc + n * 2 ^ shift < 2 ^ 64 := by
        have h1 : n + 1 ≤ 2 ^ (64 - shift) := hn
        have h2 : (n + 1) * 2 ^ shift ≤ 2 ^ (64 - shift) * 2 ^ shift :=
          Nat.mul_le_mul_right _ h1
        have h3 : (2 : Nat) ^ (64 - shift) * 2 ^ shift = 2 ^ 64 := by
          rw [← pow_add]
          congr 1
          omega
        nlinarith
      rw [Nat.mod_eq_of_lt hlt64]
      rcases Nat.eq_zero_or_pos shift with hs0 | hspos
      · subst hs0
        simp
      · have hn0 : n ≠ 0 := by
          intro h0
          have := hzero h0
          omega
        have hval : acc + n * 2 ^ shift ≠ 0 := by
          have hppos : 0 < 2 ^ shift := Nat.pos_pow_of_pos _ (by omega)
          have hmul : 0 < n * 2 ^ shift := Nat.mul_pos (by omega) hppos
          omega
        have hbeq : (acc + n * 2 ^ shift == 0) = false := by
          simp [hval]
        rw [hbeq]
        simp
    · rw [serialize_u64, if_neg h128]
      rw [List.cons_append, deserialize_varint]
      rw [if_pos hshift]
      rw [contByte_and_128, contByte_and_127]
      have hb : ((128 : Nat) == 0) = false := by decide
      rw [hb]
      simp only [Bool.false_eq_true, if_false]
      have hshift7 : shift + 7 < 64 := by
        by_contra hc
        have h57 : 57 ≤ shift := by omega
        have : (2 : Nat) ^ (64 - shift) ≤ 2 ^ 7 := Nat.pow_le_pow_right (by omega) (by omega)
        norm_num at this
        omega
      rw [or_shift_eq_add hacc]
      have hacc2 : acc + n % 128 * 2 ^ shift < 2 ^ (shift + 7) := by
        have h1 : n % 128 ≤ 127 := by omega
        have h2 : n % 128 * 2 ^ shift ≤ 127 * 2 ^ shift := Nat.mul_le_mul_right _ h1
        have h3 : (2 : Nat) ^ (shift + 7) = 2 ^ shift * 128 := by
          rw [pow_add]
          norm_num
        nlinarith
      have hlt64b : acc + n % 128 * 2 ^ shift < 2 ^ 64 := by
        have : (2 : Nat) ^ (shift + 7) ≤ 2 ^ 64 := Nat.pow_le_pow_right (by omega) (by omega)
        omega
      rw [Nat.mod_eq_of_lt hlt64b]
      have hdiv : n >>> 7 = n / 128 := by
        rw [Nat.shiftRight_eq_div_pow]
      have hrec := ih (n >>> 7)
        (by rw [hdiv]; omega)
        (acc + n % 128 * 2 ^ shift) (shift + 7) rest
        hshift7 hacc2
        (by
          rw [hdiv]
          have h1 : n < 2 ^ (64 - shift) := hn
          rw [Nat.div_lt_iff_lt_mul (by norm_num : (0:Nat) < 128)]
          have h2 : (2 : Nat) ^ (64 - (shift + 7)) * 128 = 2 ^ (64 - shift) := by
            have : (128 : Nat) = 2 ^ 7 := by norm_num
            rw [this, ← pow_add]
            congr 1
            omega
          omega)
        (by
          intro hq
          rw [hdiv] at hq
          have : 128 ≤ n := by omega
          have : 1 ≤ n / 128 := (Nat.one_le_div_iff (by omega)).mpr this
          omega)
      rw [hrec]
      congr 2
      have hdm : 128 * (n / 128) + n % 128 = n := Nat.div_add_mod n 128
      have hp : (2 : Nat) ^ (shift + 7) = 2 ^ shift * 128 := by
        rw [pow_add]
        norm_num
      rw [hdiv, hp]
      calc acc + n % 128 * 2 ^ shift + n / 128 * (2 ^ shift * 128)
          = acc + (128 * (n / 128) + n % 128) * 2 ^ shift := by ring
        _ = acc + n * 2 ^ shift := by rw [hdm]

/-- If the steps satisfy the tips framing invariant relative to the stack
depth, running the evaluator never reaches the `InsufficientSteps` state
nor the trailing-steps state: it completes or stops at an op overflow. -/
theorem runEval_no_structural_failure (H : HashFns) (steps : List Step) :
    ∀ (stack : List (List Nat)), wfFrom stack.length steps = true →
    runEval H stack steps ≠ EvalOutcome.insufficientSteps ∧
    runEval H stack steps ≠ EvalOutcome.trailingStepsPanic := by
  induction steps with
  | nil =>
    intro stack hwf
    match stack with
    | [] => simp [runEval]
    | m :: s => simp [wfFrom] at hwf
  | cons st rest ih =>
    intro stack hwf
    match stack with
    | [] => simp [wfFrom] at hwf
    | m :: s =>
      match st with
      | Step.attestation a =>
        have hwf2 : wfFrom s.length rest = true := by
          simpa [wfFrom] using hwf
        simpa [runEval] using ih s hwf2
      | Step.op o =>
        cases ho : o.eval H m with
        | ok r =>
          have hwf2 : wfFrom (r :: s).length rest = true := by
            simpa [wfFrom] using hwf
          simpa [runEval, ho] using ih (r :: s) hwf2
        | error e => simp [runEval, ho]
      | Step.fork =>
        have hwf2 : wfFrom (m :: m :: s).length rest = true := by
          simpa [wfFrom] using hwf
        simpa [runEval] using ih (m :: m :: s) hwf2

/-- Whatever `deserialize_varint` at width 32 returns is the mathematical
varint value accumulated on top of `acc` — the u64 accumulator cannot wrap
at shifts below 32, so no bits are lost before the final `as u32` cast. -/
theorem deserialize_varint32_spec (bytes : List Nat) : ∀ (acc shift v : Nat)
    (rest : List Nat), shift < 32 → acc < 2 ^ shift →
    deserialize_varint 32 bytes acc shift = Except.ok (v, rest) →
    ∃ m, varintValueSpec bytes = some (m, rest) ∧ v = acc + m * 2 ^ shift := by
  induction bytes with
  | nil =>
    intro acc shift v rest hshift hacc h
    rw [deserialize_varint] at h
    split at h <;> simp_all
  | cons b tl ih =>
    intro acc shift v rest hshift hacc h
    have hx7 : b &&& 127 < 128 := by
      have := Nat.and_lt_two_pow b (show (127 : Nat) < 2 ^ 7 by norm_num)
      norm_num at this
      omega
    have hor : acc ||| ((b &&& 127) <<< shift) = acc + (b &&& 127) * 2 ^ shift :=
      or_shift_eq_add hacc
    have hbound : acc + (b &&& 127) * 2 ^ shift < 2 ^ (shift + 7) := by
      have h2 : (b &&& 127) * 2 ^ shift ≤ 127 * 2 ^ shift :=
        Nat.mul_le_mul_right _ (by omega)
      have h3 : (2 : Nat) ^ (shift + 7) = 2 ^ shift * 128 := by
        rw [pow_add]; norm_num
      nlinarith
    have hlt64 : acc + (b &&& 127) * 2 ^ shift < 2 ^ 64 := by
      have : (2 : Nat) ^ (shift + 7) ≤ 2 ^ 64 := Nat.pow_le_pow_right (by omega) (by omega)
      omega
    rw [deserialize_varint, if_pos hshift] at h
    by_cases hterm : (b &&& 128 == 0) = true
    · rw [if_pos hterm] at h
      rw [hor, Nat.mod_eq_of_lt hlt64] at h
      split at h
      · simp at h
      · simp only [Except.ok.injEq, Prod.mk.injEq] at h
        obtain ⟨hv, hr⟩ := h
        refine ⟨b &&& 127, ?_, ?_⟩
        · rw [varintValueSpec]
          rw [if_pos hterm, hr]
        · omega
    · rw [if_neg hterm] at h
      rw [hor, Nat.mod_eq_of_lt hlt64] at h
      by_cases hs7 : shift + 7 < 32
      · have := ih (acc + (b &&& 127) * 2 ^ shift) (shift + 7) v rest hs7 hbound h
        obtain ⟨m, hm, hv⟩ := this
        refine ⟨(b &&& 127) + 128 * m, ?_, ?_⟩
        · rw [varintValueSpec, if_neg hterm, hm]
          simp
        · rw [hv]
          have hp : (2 : Nat) ^ (shift + 7) = 2 ^ shift * 128 := by
            rw [pow_add]; norm_num
          rw [hp]
          ring
      · exfalso
        match tl, h with
        | [], h => rw [deserialize_varint, if_neg hs7] at h; simp at h
        | c :: tl2, h => rw [deserialize_varint, if_neg hs7] at h; simp at h

/-- A sequence consisting only of op steps never closes any branch, so it
fails the tips framing invariant from any positive tip count. -/
theorem wfFrom_allOps (steps : List Step) (h : steps.all isOpStep = true) :
    ∀ t, wfFrom (t + 1) steps = false := by
  induction steps with
  | nil => intro t; simp [wfFrom]
  | cons s rest ih =>
    intro t
    simp only [List.all_cons, Bool.and_eq_true] at h
    match s, h.1 with
    | Step.op o, _ =>
      simpa [wfFrom] using ih h.2 t

/-- Appending within the output bound succeeds and concatenates. -/
theorem append_ok (H : HashFns) (b : TimestampBuilder) (r : List Nat)
    (hlen : b.resultBytes.length + r.length ≤ MAX_OUTPUT_LENGTH) :
    b.append H r =
      some ⟨b.msg, some (b.resultBytes ++ r), b.steps ++ [Step.op (Op.append r)]⟩ := by
  simp only [TimestampBuilder.append, TimestampBuilder.try_push_op, Op.eval, op_concat]
  rw [if_neg (by omega)]
  rfl

/-- Prepending within the output bound succeeds and concatenates. -/
theorem prepend_ok (H : HashFns) (b : TimestampBuilder) (l : List Nat)
    (hlen : l.length + b.resultBytes.length ≤ MAX_OUTPUT_LENGTH) :
    b.prepend H l =
      some ⟨b.msg, some (l ++ b.resultBytes), b.steps ++ [Step.op (Op.prepend l)]⟩ := by
  simp only [TimestampBuilder.prepend, TimestampBuilder.try_push_op, Op.eval, op_concat]
  rw [if_neg (by omega)]
  rfl

/-- After the left-half loop, every builder's result is the SHA-256 of the
two tips in order. -/
theorem updateLeftBuilders_spec (H : HashFns) (ltip rtip : List Nat)
    (hlt : ltip.length = 32) (hrt : rtip.length = 32) :
    ∀ (l : List TimestampBuilder), (∀ b ∈ l, b.resultBytes = ltip) →
    ∃ l2, updateLeftBuilders H rtip l = some l2 ∧ l2.length = l.length ∧
      ∀ b ∈ l2, b.resultBytes = H.sha256 (ltip ++ rtip) := by
  intro l
  induction l with
  | nil => exact fun _ => ⟨[], rfl, rfl, by simp⟩
  | cons b rest ih =>
    intro hall
    have hb : b.resultBytes = ltip := hall b (by simp)
    have happ := append_ok H b rtip (by rw [hb, hlt, hrt]; norm_num [MAX_OUTPUT_LENGTH])
    obtain ⟨tl2, htl2, hlen2, hall2⟩ := ih (fun x hx => hall x (by simp [hx]))
    refine ⟨TimestampBuilder.hash H
      ⟨b.msg, some (b.resultBytes ++ rtip), b.steps ++ [Step.op (Op.append rtip)]⟩
      HashOp.sha256 :: tl2, ?_, ?_, ?_⟩
    · rw [updateLeftBuilders, happ, htl2]
      rfl
    · simpa using hlen2
    · intro x hx
      simp only [List.mem_cons] at hx
      rcases hx with rfl | hx
      · have hb2 : b.result.getD b.msg = ltip := hb
        simp [TimestampBuilder.hash, TimestampBuilder.resultBytes, HashOp.eval, hb2]
      · exact hall2 x hx

/-- After the right-half loop, every builder's result is the SHA-256 of the
two tips in order. -/
theorem updateRightBuilders_spec (H : HashFns) (ltip rtip : List Nat)
    (hlt : ltip.length = 32) (hrt : rtip.length = 32) :
    ∀ (l : List TimestampBuilder), (∀ b ∈ l, b.resultBytes = rtip) →
    ∃ l2, updateRightBuilders H ltip l = some l2 ∧ l2.length = l.length ∧
      ∀ b ∈ l2, b.resultBytes = H.sha256 (ltip ++ rtip) := by
  intro l
  induction l with
  | nil => exact fun _ => ⟨[], rfl, rfl, by simp⟩
  | cons b rest ih =>
    intro hall
    have hb : b.resultBytes = rtip := hall b (by simp)
    have happ := prepend_ok H b ltip (by rw [hb, hlt, hrt]; norm_num [MAX_OUTPUT_LENGTH])
    obtain ⟨tl2, htl2, hlen2, hall2⟩ := ih (fun x hx => hall x (by simp [hx]))
    refine ⟨TimestampBuilder.hash H
      ⟨b.msg, some (ltip ++ b.resultBytes), b.steps ++ [Step.op (Op.prepend ltip)]⟩
      HashOp.sha256 :: tl2, ?_, ?_, ?_⟩
    · rw [updateRightBuilders, happ, htl2]
      rfl
    · simpa using hlen2
    · intro x hx
      simp only [List.mem_cons] at hx
      rcases hx with rfl | hx
      · have hb2 : b.result.getD b.msg = rtip := hb
        simp [TimestampBuilder.hash, TimestampBuilder.resultBytes, HashOp.eval, hb2]
      · exact hall2 x hx

/-- The merkle-tree invariant: for any nonempty builder slice whose
results are 32-byte digests, `build` succeeds and afterwards every builder
(not only the first and last) carries the same 32-byte result, the
returned tip. -/
theorem buildMerkleGo_spec (H : HashFns) (hsha : ∀ m, (H.sha256 m).length = 32) :
    ∀ (fuel : Nat) (items : List TimestampBuilder), items ≠ [] →
    items.length ≤ fuel → (∀ b ∈ items, b.resultBytes.length = 32) →
    ∃ tip items2, buildMerkleGo H fuel items = some (tip, items2) ∧
      tip.length = 32 ∧ items2.length = items.length ∧
      ∀ b ∈ items2, b.resultBytes = tip := by
  intro fuel
  induction fuel with
  | zero =>
    intro items hne hlen _
    exact absurd (List.eq_nil_of_length_eq_zero (Nat.le_zero.mp hlen)) hne
  | succ fuel ih =>
    intro items hne hlen hall
    match items with
    | [b] =>
      have hb32 : b.resultBytes.length = 32 := hall b (by simp)
      by_cases hm : b.msg.length = 32
      · refine ⟨b.resultBytes, [b], ?_, hb32, rfl, by simp⟩
        simp [buildMerkleGo, hm, hb32]
      · have hres : (b.hash H HashOp.sha256).resultBytes.length = 32 := by
          simp [TimestampBuilder.hash, TimestampBuilder.resultBytes, HashOp.eval, hsha]
        refine ⟨(b.hash H HashOp.sha256).resultBytes, [b.hash H HashOp.sha256],
          ?_, hres, rfl, by simp⟩
        simp [buildMerkleGo, hm, hres]
    | x :: y :: rest =>
      have hlenc : (x :: y :: rest).length = rest.length + 2 := by simp
      have hmid1 : 1 ≤ (x :: y :: rest).length / 2 := by omega
      have hmidlt : (x :: y :: rest).length / 2 < (x :: y :: rest).length := by omega
      have htake_len : ((x :: y :: rest).take ((x :: y :: rest).length / 2)).length
          = (x :: y :: rest).length / 2 := by
        simp [List.length_take]
        omega
      have hdrop_len : ((x :: y :: rest).drop ((x :: y :: rest).length / 2)).length
          = (x :: y :: rest).length - (x :: y :: rest).length / 2 := by
        simp
      have htake_ne : (x :: y :: rest).take ((x :: y :: rest).length / 2) ≠ [] := by
        intro hc
        have := congrArg List.length hc
        rw [htake_len] at this
        simp at this
        omega
      have hdrop_ne : (x :: y :: rest).drop ((x :: y :: rest).length / 2) ≠ [] := by
        intro hc
        have := congrArg List.length hc
        rw [hdrop_len] at this
        simp at this
        omega
      obtain ⟨ltip, left2, heqL, hl32, hlenL, hallL⟩ :=
        ih ((x :: y :: rest).take ((x :: y :: rest).length / 2)) htake_ne
          (by rw [htake_len]; omega)
          (fun b hb => hall b (List.take_subset _ _ hb))
      obtain ⟨rtip, right2, heqR, hr32, hlenR, hallR⟩ :=
        ih ((x :: y :: rest).drop ((x :: y :: rest).length / 2)) hdrop_ne
          (by rw [hdrop_len]; omega)
          (fun b hb => hall b (List.drop_subset _ _ hb))
      obtain ⟨left3, heqL3, hlenL3, hallL3⟩ :=
        updateLeftBuilders_spec H ltip rtip hl32 hr32 left2 hallL
      obtain ⟨right3, heqR3, hlenR3, hallR3⟩ :=
        updateRightBuilders_spec H ltip rtip hl32 hr32 right2 hallR
      have hcomb_all : ∀ b ∈ left3 ++ right3, b.resultBytes = H.sha256 (ltip ++ rtip) := by
        intro b hb
        rcases List.mem_append.mp hb with h | h
        · exact hallL3 b h
        · exact hallR3 b h
      have hcomb_ne : left3 ++ right3 ≠ [] := by
        intro hc
        have hlen0 : (left3 ++ right3).length = 0 := by rw [hc]; rfl
        rw [List.length_append, hlenL3, hlenR3, hlenL, hlenR, htake_len, hdrop_len] at hlen0
        omega
      have hhead : (left3 ++ right3).head? = some ((left3 ++ right3).head hcomb_ne) :=
        List.head?_eq_head hcomb_ne
      have hlast : (left3 ++ right3).getLast? = some ((left3 ++ right3).getLast hcomb_ne) :=
        List.getLast?_eq_getLast _ hcomb_ne
      have hfirst_val : ((left3 ++ right3).head hcomb_ne).resultBytes = H.sha256 (ltip ++ rtip) :=
        hcomb_all _ (List.head_mem hcomb_ne)
      have hlast_val : ((left3 ++ right3).getLast hcomb_ne).resultBytes = H.sha256 (ltip ++ rtip) :=
        hcomb_all _ (List.getLast_mem hcomb_ne)
      refine ⟨H.sha256 (ltip ++ rtip), left3 ++ right3, ?_, hsha _, ?_, hcomb_all⟩
      · rw [buildMerkleGo]
        simp only [heqL, heqR]
        simp only [heqL3, heqR3]
        simp only [hhead, hlast]
        rw [if_pos (by rw [hfirst_val]; exact hsha _)]
        rw [if_pos (by rw [hfirst_val, hlast_val])]
        rw [hfirst_val]
      · rw [List.length_append, hlenL3, hlenR3, hlenL, hlenR, htake_len, hdrop_len]
        omega

/-- `build_merkle_tree` satisfies the merkle invariant for every nonempty
input whose results are 32-byte digests. -/
theorem build_merkle_tree_spec (H : HashFns) (hsha : ∀ m, (H.sha256 m).length = 32)
    (items : List TimestampBuilder) (hne : items ≠ [])
    (hall : ∀ b ∈ items, b.resultBytes.length = 32) :
    ∃ tip items2, build_merkle_tree H items = some (tip, items2) ∧
      tip.length = 32 ∧ items2.length = items.length ∧
      ∀ b ∈ items2, b.resultBytes = tip :=
  buildMerkleGo_spec H hsha items.length items hne (Nat.le_refl _) hall

example : serialize_u64 0 = [0] := by simp [serialize_u64]

example : serialize_u64 128 = [128, 1] := by simp [serialize_u64]

example : deserialize_u64 [0xff, 0x00] = Except.ok (127, []) := rfl

example : deserialize_u64 [0x80, 0x00] =
    Except.error (DeserializeError.invalid "zero encoded with more than one byte") := rfl

example : deserialize_u32 [0x80, 0x80, 0x80, 0x80, 0x10] = Except.ok (0, []) := rfl

example : Attestation.serialize (Attestation.pending ⟨[]⟩) =
    [0x83, 0xdf, 0xe3, 0x0d, 0x2e, 0xf9, 0x0c, 0x8e, 0x01, 0x00] := by
  simp [Attestation.serialize, PENDING_ATTESTATION_TAG, UriString.serialize,
        serialize_varbytes, serialize_u64]

example : Attestation.serialize (Attestation.pending ⟨[0x61]⟩) =
    [0x83, 0xdf, 0xe3, 0x0d, 0x2e, 0xf9, 0x0c, 0x8e, 0x02, 0x01, 0x61] := by
  simp [Attestation.serialize, PENDING_ATTESTATION_TAG, UriString.serialize,
        serialize_varbytes, serialize_u64]

example : Attestation.deserialize
    [0x05, 0x88, 0x96, 0x0d, 0x73, 0xd7, 0x19, 0x01, 0x02, 0x2a, 0x00] =
    Except.ok (Attestation.bitcoin 42, []) := by decide

example : stepsDeserialize
    ([0x00] ++ [0x05, 0x88, 0x96, 0x0d, 0x73, 0xd7, 0x19, 0x01, 0x01, 0x2a]) =
    Except.ok ([Step.attestation (Attestation.bitcoin 42)], []) := by decide

/-- One evaluator transition stops with an overflow outcome when the op
evaluation fails. -/
theorem runEval_op_error (H : HashFns) (m : List Nat) (s : List (List Nat))
    (o : Op) (rest : List Step) (e : OverflowError)
    (h : Op.eval H o m = Except.error e) :
    runEval H (m :: s) (Step.op o :: rest) = EvalOutcome.overflow e := by
  rw [runEval]
  simp only [h]

/-- Claim C8: for every n below 2^64, `serialize_u64` produces a
self-delimiting base-128 little-endian encoding and `deserialize_u64`
applied to exactly those bytes (followed by anything) returns n and leaves
exactly the following bytes — the round-trip identity, consuming exactly
the bytes written. -/
theorem claim_C8_varint_roundtrip (n : Nat) (rest : List Nat) (h : n < 2 ^ 64) :
    deserialize_u64 (serialize_u64 n ++ rest) = Except.ok (n, rest) := by
  have hx := deserialize_serialize_u64_aux n 0 0 rest (by norm_num) (by norm_num)
    (by simpa using h) (fun _ => rfl)
  simpa [deserialize_u64] using hx

/-- Witness for C8 at n = 2^63 + 5 with two trailing bytes. -/
theorem claim_C8_witness :
    (2 ^ 63 + 5 < 2 ^ 64) ∧
    deserialize_u64 (serialize_u64 (2 ^ 63 + 5) ++ [9, 7]) = Except.ok (2 ^ 63 + 5, [9, 7]) :=
  ⟨by norm_num, claim_C8_varint_roundtrip (2 ^ 63 + 5) [9, 7] (by norm_num)⟩

/-- Counterexample to claim C2 as stated: `[0xFF, 0x00]` is longer than the
shortest encoding `[0x7F]` of 127 and has a zero terminator after a
continuation byte, yet `deserialize_u64` accepts it and returns 127 — no
NonCanonical error (the source's own test asserts exactly this). -/
theorem claim_C2_counterexample :
    serialize_u64 127 = [0x7f] ∧
    deserialize_u64 [0xff, 0x00] = Except.ok (127, []) := by
  constructor
  · simp [serialize_u64]
  · rfl

/-- Claim C2 as amended: the NonCanonical rejection fires exactly when the
decoded accumulator is zero after more than one byte — the multi-byte
encodings of zero `[0x80, …, 0x80, 0x00]` — while an overlong encoding of
a nonzero value such as `[0xFF, 0x00]` is decoded successfully. -/
theorem claim_C2_amended (k : Nat) (h1 : 1 ≤ k) (h9 : k ≤ 9) :
    deserialize_u64 (List.replicate k 0x80 ++ [0x00]) =
      Except.error (DeserializeError.invalid "zero encoded with more than one byte") ∧
    deserialize_u64 [0xff, 0x00] = Except.ok (127, []) := by
  refine ⟨?_, rfl⟩
  interval_cases k <;> decide

/-- Witness for the amended C2 at k = 2. -/
theorem claim_C2_witness :
    (1 ≤ 2 ∧ 2 ≤ 9) ∧
    (deserialize_u64 (List.replicate 2 0x80 ++ [0x00]) =
      Except.error (DeserializeError.invalid "zero encoded with more than one byte") ∧
    deserialize_u64 [0xff, 0x00] = Except.ok (127, [])) :=
  ⟨⟨by norm_num, by norm_num⟩, claim_C2_amended 2 (by norm_num) (by norm_num)⟩

/-- Counterexample to claim C5 as stated: `[0x80,0x80,0x80,0x80,0x10]`
encodes 2^32, whose bit 32 is beyond the u32 width, yet `deserialize_u32`
does not fail with VarintOverflow — it silently truncates and returns 0. -/
theorem claim_C5_counterexample :
    deserialize_u32 [0x80, 0x80, 0x80, 0x80, 0x10] = Except.ok (0, []) ∧
    varintValueSpec [0x80, 0x80, 0x80, 0x80, 0x10] = some (2 ^ 32, []) := by
  constructor
  · rfl
  · decide

/-- Claim C5 as amended: whenever `deserialize_u32` succeeds it returns the
mathematical varint value of the consumed bytes reduced modulo 2^32 (the
final `as u32` cast discards any higher bits); overflow is reported only
when the continuation chain reaches shift ≥ 32. -/
theorem claim_C5_amended (bytes : List Nat) (v : Nat) (rest : List Nat)
    (h : deserialize_u32 bytes = Except.ok (v, rest)) :
    ∃ m, varintValueSpec bytes = some (m, rest) ∧ v = m % 2 ^ 32 := by
  unfold deserialize_u32 at h
  cases hd : deserialize_varint 32 bytes 0 0 with
  | error e => rw [hd] at h; simp [Except.map] at h
  | ok vr =>
    rw [hd] at h
    simp only [Except.map, Except.ok.injEq, Prod.mk.injEq] at h
    obtain ⟨hv, hr⟩ := h
    obtain ⟨m, hm, hval⟩ :=
      deserialize_varint32_spec bytes 0 0 vr.1 vr.2 (by norm_num) (by norm_num) (by
        rw [hd])
    refine ⟨m, ?_, ?_⟩
    · rw [hm, hr]
    · omega

/-- Witness for the amended C5 at the truncating input. -/
theorem claim_C5_witness :
    deserialize_u32 [0x80, 0x80, 0x80, 0x80, 0x10] = Except.ok (0, []) ∧
    (∃ m, varintValueSpec [0x80, 0x80, 0x80, 0x80, 0x10] = some (m, []) ∧ 0 = m % 2 ^ 32) :=
  ⟨rfl, claim_C5_amended [0x80, 0x80, 0x80, 0x80, 0x10] 0 [] rfl⟩

/-- Claim C3, evaluated at the failing input: a Bitcoin attestation whose
varbytes payload `[0x2a, 0x00]` has one byte left over after the varint
block height, yet `Attestation::deserialize` succeeds with `Bitcoin{42}`
instead of failing with TrailingBytes (the source carries a FIXME for the
missing full-consumption check). -/
theorem claim_C3_code_bug :
    Attestation.deserialize
      [0x05, 0x88, 0x96, 0x0d, 0x73, 0xd7, 0x19, 0x01, 0x02, 0x2a, 0x00] =
      Except.ok (Attestation.bitcoin 42, []) := by decide

/-- Claim C6, evaluated at the failing input: starting from message `[0x6d]`
and steps `[Attestation(Bitcoin 42), Fork]`, the first `try_next_step`
closes the only branch, and the second — stack empty, one step remaining —
executes the source's `todo!()` and panics instead of returning a
TrailingSteps error. -/
theorem claim_C6_code_bug :
    (tryNextStep constHashes
      (StepsEvaluator.new [0x6d] [Step.attestation (Attestation.bitcoin 42), Step.fork])).1 =
      TryNextOutcome.ok (Step.attestation (Attestation.bitcoin 42)) [0x6d] ∧
    (tryNextStep constHashes
      (tryNextStep constHashes
        (StepsEvaluator.new [0x6d]
          [Step.attestation (Attestation.bitcoin 42), Step.fork])).2).1 =
      TryNextOutcome.panicTodo := by decide

/-- Claim C9: once `try_next_step` has returned None (modelled as the
`completed` outcome), the state is unchanged, every further call returns
None again, and `result()` is None in that state — an absorbing terminal
state. -/
theorem claim_C9_terminal_absorbing (H : HashFns) (e e2 : StepsEvaluator)
    (h : tryNextStep H e = (TryNextOutcome.completed, e2)) :
    e2 = e ∧ tryNextStep H e2 = (TryNextOutcome.completed, e2) ∧ e2.result = none := by
  obtain ⟨stack, dr, steps⟩ := e
  match stack, steps with
  | [], [] =>
    rw [tryNextStep] at h
    simp only [Prod.mk.injEq] at h
    obtain ⟨-, he⟩ := h
    subst he
    exact ⟨rfl, rfl, rfl⟩
  | m :: s, [] =>
    rw [tryNextStep] at h
    simp at h
  | [], st :: rest =>
    rw [tryNextStep] at h
    simp at h
  | m :: s, st :: rest =>
    rw [tryNextStep] at h
    match st with
    | Step.attestation a => simp at h
    | Step.fork => simp at h
    | Step.op o =>
      simp only at h
      cases ho : Op.eval H o m with
      | ok r => rw [ho] at h; simp at h
      | error err => rw [ho] at h; simp at h

/-- Witness for C9 at the empty terminal evaluator. -/
theorem claim_C9_witness :
    tryNextStep constHashes ⟨[], none, []⟩ = (TryNextOutcome.completed, ⟨[], none, []⟩) ∧
    ((⟨[], none, []⟩ : StepsEvaluator) = ⟨[], none, []⟩ ∧
      tryNextStep constHashes ⟨[], none, []⟩ = (TryNextOutcome.completed, ⟨[], none, []⟩) ∧
      StepsEvaluator.result ⟨[], none, []⟩ = none) :=
  ⟨rfl, claim_C9_terminal_absorbing constHashes ⟨[], none, []⟩ ⟨[], none, []⟩ rfl⟩

/-- Claim C10: finishing a builder whose accumulated steps are all op steps
with an empty iterator of sub-timestamps returns, without panicking, a
timestamp whose steps are exactly those op steps — containing no Fork and
no Attestation, hence violating the steps well-formedness invariant. -/
theorem claim_C10_finish_empty (b : TimestampBuilder) (h : b.steps.all isOpStep = true) :
    b.finish_with_timestamps [] = some ⟨b.msg, b.steps⟩ ∧
    (∀ s ∈ b.steps, s ≠ Step.fork ∧ ∀ a, s ≠ Step.attestation a) ∧
    wfFrom 1 b.steps = false := by
  refine ⟨rfl, ?_, wfFrom_allOps b.steps h 0⟩
  intro s hs
  have hop := List.all_eq_true.mp h s hs
  match s, hop with
  | Step.op o, _ => exact ⟨by simp, fun a => by simp⟩

/-- Witness for C10 at a builder holding one hash op step. -/
theorem claim_C10_witness :
    ((⟨[7], none, [Step.op (Op.hashOp HashOp.sha256)]⟩ : TimestampBuilder).steps.all
      isOpStep = true) ∧
    ((⟨[7], none, [Step.op (Op.hashOp HashOp.sha256)]⟩ : TimestampBuilder).finish_with_timestamps []
        = some ⟨[7], [Step.op (Op.hashOp HashOp.sha256)]⟩ ∧
      (∀ s ∈ [Step.op (Op.hashOp HashOp.sha256)],
        s ≠ Step.fork ∧ ∀ a, s ≠ Step.attestation a) ∧
      wfFrom 1 [Step.op (Op.hashOp HashOp.sha256)] = false) :=
  ⟨by decide, claim_C10_finish_empty ⟨[7], none, [Step.op (Op.hashOp HashOp.sha256)]⟩ (by decide)⟩

/-- Counterexample to claim C4 as stated: a byte stream deserializes
successfully into a Timestamp (framing is valid), yet evaluating its steps
from the given 4096-byte message fails with an op-evaluation Overflow —
`Timestamp::deserialize` does not rule that out. -/
theorem claim_C4_counterexample :
    Timestamp.deserialize (List.replicate 4096 0)
        ([0xf0, 0x01, 0x00, 0x00, 0x05, 0x88, 0x96, 0x0d, 0x73, 0xd7, 0x19, 0x01, 0x01, 0x2a]) =
      Except.ok
        (⟨List.replicate 4096 0,
          [Step.op (Op.append [0x00]), Step.attestation (Attestation.bitcoin 42)]⟩, []) ∧
    runEval constHashes [List.replicate 4096 0]
        [Step.op (Op.append [0x00]), Step.attestation (Attestation.bitcoin 42)] =
      EvalOutcome.overflow ⟨4097⟩ := by
  constructor
  · unfold Timestamp.deserialize
    rw [show stepsDeserialize
        [0xf0, 0x01, 0x00, 0x00, 0x05, 0x88, 0x96, 0x0d, 0x73, 0xd7, 0x19, 0x01, 0x01, 0x2a] =
        Except.ok
          ([Step.op (Op.append [0x00]), Step.attestation (Attestation.bitcoin 42)], [])
      from by decide]
  · have hcond : (List.replicate 4096 0 : List Nat).length + ([0x00] : List Nat).length >
        MAX_OUTPUT_LENGTH := by
      rw [List.length_replicate]
      simp only [List.length_cons, List.length_nil, MAX_OUTPUT_LENGTH]
      omega
    have h1 : Op.eval constHashes (Op.append [0x00]) (List.replicate 4096 0) =
        Except.error ⟨4097⟩ := by
      rw [Op.eval, op_concat, if_pos hcond, List.length_replicate]
      norm_num
    exact runEval_op_error constHashes (List.replicate 4096 0) [] (Op.append [0x00])
      [Step.attestation (Attestation.bitcoin 42)] ⟨4097⟩ h1

/-- Claim C4 as amended: every Timestamp returned by
`Timestamp::deserialize` has steps satisfying the structural framing
invariant, so evaluating them from any message never fails with
InsufficientSteps and never leaves trailing steps (it completes at every
attestation leaf unless an op-evaluation Overflow stops it, which
deserialization does not exclude). -/
theorem claim_C4_amended (H : HashFns) (msg : List Nat) (bytes : List Nat)
    (ts : Timestamp (List Nat)) (rest : List Nat)
    (h : Timestamp.deserialize msg bytes = Except.ok (ts, rest)) :
    runEval H [msg] ts.steps ≠ EvalOutcome.insufficientSteps ∧
    runEval H [msg] ts.steps ≠ EvalOutcome.trailingStepsPanic := by
  unfold Timestamp.deserialize at h
  cases hs : stepsDeserialize bytes with
  | error e => rw [hs] at h; simp at h
  | ok sr =>
    rw [hs] at h
    simp only [Except.ok.injEq, Prod.mk.injEq] at h
    obtain ⟨hts, -⟩ := h
    have hwf : wfFrom 1 sr.1 = true := stepsDeserialize_wf bytes sr.1 sr.2 (by rw [hs])
    have hrun := runEval_no_structural_failure H sr.1 [msg] (by simpa using hwf)
    rw [← hts]
    exact hrun

/-- Witness for the amended C4 at a one-attestation proof. -/
theorem claim_C4_witness :
    Timestamp.deserialize [1, 2, 3]
        ([0x00, 0x05, 0x88, 0x96, 0x0d, 0x73, 0xd7, 0x19, 0x01, 0x01, 0x2a]) =
      Except.ok (⟨[1, 2, 3], [Step.attestation (Attestation.bitcoin 42)]⟩, []) ∧
    (runEval constHashes [[1, 2, 3]] [Step.attestation (Attestation.bitcoin 42)] ≠
        EvalOutcome.insufficientSteps ∧
      runEval constHashes [[1, 2, 3]] [Step.attestation (Attestation.bitcoin 42)] ≠
        EvalOutcome.trailingStepsPanic) :=
  ⟨by decide,
    claim_C4_amended constHashes [1, 2, 3]
      [0x00, 0x05, 0x88, 0x96, 0x0d, 0x73, 0xd7, 0x19, 0x01, 0x01, 0x2a]
      ⟨[1, 2, 3], [Step.attestation (Attestation.bitcoin 42)]⟩ [] (by decide)⟩

/-- Claim C7: for every nonempty vector of builders whose current results
are 32-byte digests, `build_merkle_tree` returns a 32-byte tip and
afterwards every builder in the vector — not only the first and last —
has a result equal to that tip.  Parametric in the SHA-256 primitive,
assuming only its 32-byte output length. -/
theorem claim_C7_merkle_consistency (H : HashFns)
    (hsha : ∀ m, (H.sha256 m).length = 32)
    (items : List TimestampBuilder) (hne : items ≠ [])
    (hall : ∀ b ∈ items, b.resultBytes.length = 32) :
    ∃ tip items2, build_merkle_tree H items = some (tip, items2) ∧
      tip.length = 32 ∧ items2.length = items.length ∧
      ∀ b ∈ items2, b.resultBytes = tip :=
  build_merkle_tree_spec H hsha items hne hall

/-- Witness for C7 at two builders over distinct 32-byte messages. -/
theorem claim_C7_witness :
    (∀ m, (constHashes.sha256 m).length = 32) ∧
    ([(⟨List.replicate 32 0, none, []⟩ : TimestampBuilder),
      ⟨List.replicate 32 1, none, []⟩] ≠ []) ∧
    (∃ tip items2,
      build_merkle_tree constHashes
        [⟨List.replicate 32 0, none, []⟩, ⟨List.replicate 32 1, none, []⟩] =
          some (tip, items2) ∧
      tip.length = 32 ∧ items2.length = 2 ∧ ∀ b ∈ items2, b.resultBytes = tip) :=
  ⟨fun m => by simp [constHashes], by decide,
    claim_C7_merkle_consistency constHashes (fun m => by simp [constHashes])
      [⟨List.replicate 32 0, none, []⟩, ⟨List.replicate 32 1, none, []⟩]
      (by decide) (by decide)⟩

/-- Claim C1, evaluated at the failing input: for a detached file whose
digest is RIPEMD-160, `serialize` writes algorithm byte 0x02 (the SHA-1
tag, at offset 32, after the 31-byte magic and the version byte) rather
than 0x03, and deserializing the serialized bytes returns a SHA-1-tagged
file instead of the original — the round-trip the claim requires is
broken for RIPEMD-160. -/
theorem claim_C1_code_bug :
    (DetachedTimestampFile.serialize
        ⟨⟨FileDigest.ripemd160 (List.replicate 20 0),
          [Step.attestation (Attestation.bitcoin 42)]⟩⟩)[32]? = some 0x02 ∧
    DetachedTimestampFile.deserialize
        (DetachedTimestampFile.serialize
          ⟨⟨FileDigest.ripemd160 (List.replicate 20 0),
            [Step.attestation (Attestation.bitcoin 42)]⟩⟩) =
      Except.ok
        (⟨⟨FileDigest.sha1 (List.replicate 20 0),
          [Step.attestation (Attestation.bitcoin 42)]⟩⟩, []) ∧
    (⟨⟨FileDigest.sha1 (List.replicate 20 0),
        [Step.attestation (Attestation.bitcoin 42)]⟩⟩ : DetachedTimestampFile) ≠
      ⟨⟨FileDigest.ripemd160 (List.replicate 20 0),
        [Step.attestation (Attestation.bitcoin 42)]⟩⟩ := by
  have hser : DetachedTimestampFile.serialize
      ⟨⟨FileDigest.ripemd160 (List.replicate 20 0),
        [Step.attestation (Attestation.bitcoin 42)]⟩⟩ =
      HEADER_MAGIC ++ [0x01, 0x02] ++ List.replicate 20 0 ++
        ([0x00] ++ BITCOIN_ATTESTATION_TAG ++ [0x01, 0x2a]) := by
    simp [DetachedTimestampFile.serialize, DetachedTimestampFile.digest, MAJOR_VERSION,
      FileDigest.asRef, stepsSerialize, Step.serialize, Attestation.serialize,
      serialize_varbytes, serialize_u32, serialize_u64]
  rw [hser]
  refine ⟨by decide, by decide, by decide⟩

end OTS

